import Mathlib

/-!
Verification of the Connect-4 game server (Go backend, `main.go`).

The board engine, opponent heuristic, move handler, disconnect/forfeit
timer and matchmaker are embedded shallowly as pure Lean functions over
explicit state; imperative mutation becomes state passing, channel sends
become message lists, and the two timers become explicit "fire" steps on
the captured state.
-/

namespace C4

/-- Cell colors; `Color.empty` models the Go empty string color. -/
inductive Color where
  | empty
  | red
  | yellow
deriving DecidableEq, Repr

/-- The board: 6 rows of 7 cells, row 0 on top, row 5 at the bottom
(matching `Board [][]Color` in `main.go`). -/
abbrev Board := List (List Color)

def ROWS : Nat := 6
def COLS : Nat := 7

/-- A fresh all-empty board as built by `createGame`. -/
def emptyBoard : Board := List.replicate ROWS (List.replicate COLS Color.empty)

/-- Read `game.Board[r][c]` for in-range indices (defaults to empty off the end). -/
def getCell (b : Board) (r c : Nat) : Color := (b.getD r []).getD c Color.empty

/-- Write `game.Board[r][c] = v`. -/
def setCell (b : Board) (r c : Nat) (v : Color) : Board :=
  b.set r ((b.getD r []).set c v)

/-- The bounds test `r >= 0 && r < ROWS && c >= 0 && c < COLS` used by
`checkWinner` before indexing (coordinates as Go ints). -/
def inGrid (r c : Int) : Bool :=
  decide (0 ≤ r) && decide (r < 6) && decide (0 ≤ c) && decide (c < 7)

/-- Board access at int coordinates; only consulted under `inGrid`. -/
def cellAt (b : Board) (r c : Int) : Color := getCell b r.toNat c.toNat

/-- One arm of `checkWinner`'s inner loops: the number of consecutive
same-color in-grid cells met walking from `(r,c)` in direction `(dr,dc)`,
examining at most `fuel` steps (the Go loop has `i < 4`, i.e. fuel 3). -/
def countDir (b : Board) (color : Color) (r c dr dc : Int) : Nat → Nat
  | 0 => 0
  | fuel + 1 =>
    if inGrid (r + dr) (c + dc) && (cellAt b (r + dr) (c + dc) == color) then
      1 + countDir b color (r + dr) (c + dc) dr dc fuel
    else 0

/-- The four axis directions tested by `checkWinner`. -/
def dirs : List (Int × Int) := [(0, 1), (1, 0), (1, 1), (1, -1)]

/-- Go variable `count` for one direction in `checkWinner`: the placed cell plus up to
three steps each way. -/
def axisCount (b : Board) (color : Color) (row col dr dc : Int) : Nat :=
  1 + countDir b color row col dr dc 3 + countDir b color row col (-dr) (-dc) 3

/-- Function `checkWinner(game, row, col)` from `main.go`: false on an empty cell,
else true iff some axis through the cell counts ≥ 4. -/
def checkWinner (b : Board) (row col : Int) : Bool :=
  let color := cellAt b row col
  if color = Color.empty then false
  else dirs.any fun d => decide (4 ≤ axisCount b color row col d.1 d.2)

/-- Function `isBoardFull(game)`: true iff no cell is empty. -/
def isBoardFull (b : Board) : Bool :=
  b.all fun row => row.all fun cell => !(cell == Color.empty)

/-- The bottom-up search `for r := ROWS-1; r >= 0; r--` for the first empty
cell of `col`; the fuel argument is one past the row to test first. -/
def findRowAux (b : Board) (col : Nat) : Nat → Option Nat
  | 0 => none
  | r + 1 => if getCell b r col = Color.empty then some r else findRowAux b col r

/-- The row the move handler writes into for column `col` (`none` models the
`row == -1` "column full" outcome). -/
def findRow (b : Board) (col : Nat) : Option Nat := findRowAux b col ROWS

/-- Board-engine `place`: lowest empty row of the column or failure
(`ColumnFullError`), plus the board after writing. -/
def place (b : Board) (col : Nat) (color : Color) : Option (Nat × Board) :=
  (findRow b col).map fun r => (r, setCell b r col color)

/-- Function `canWin(game, col, color)` with the board mutation made explicit: the
returned board is the board as `canWin` leaves it (write, check, erase). -/
def canWinSt (b : Board) (col : Nat) (color : Color) : Bool × Board :=
  match findRow b col with
  | none => (false, b)
  | some row =>
    let b1 := setCell b row col color
    let wins := checkWinner b1 row col
    let b2 := setCell b1 row col Color.empty
    (wins, b2)

/-- The boolean `canWin` returns. -/
def canWinB (b : Board) (col : Nat) (color : Color) : Bool := (canWinSt b col color).1

/-- Function `isColumnAvailable(game, col)`: in range and top cell empty. -/
def isColumnAvailable (b : Board) (col : Nat) : Bool :=
  decide (col < COLS) && (getCell b 0 col == Color.empty)

/-- The columns `0..6` scanned left to right by `getBotMove`. -/
def colScan : List Nat := [0, 1, 2, 3, 4, 5, 6]

/-- The fixed neutral preference order in `getBotMove`. -/
def prefOrder : List Nat := [2, 4, 1, 5, 0, 6]

/-- Function `getBotMove(game)`: win now, else block, else center, else preference
order, else -1. Each Go `for`+`return` loop is a `List.find?`. -/
def getBotMove (b : Board) : Int :=
  match colScan.find? (fun col => canWinB b col Color.yellow) with
  | some col => (col : Int)
  | none =>
    match colScan.find? (fun col => canWinB b col Color.red) with
    | some col => (col : Int)
    | none =>
      if isColumnAvailable b 3 then 3
      else
        match prefOrder.find? (fun col => isColumnAvailable b col) with
        | some col => (col : Int)
        | none => -1

/-- The `Winner` field of a game (`""`, `"red"`, `"yellow"`, `"draw"`). -/
inductive Winner where
  | unset
  | redWon
  | yellowWon
  | draw
deriving DecidableEq, Repr

/-- Assignment `game.Winner = string(player.Color)` on a winning placement. -/
def winnerOfColor : Color → Winner
  | Color.red => Winner.redWon
  | Color.yellow => Winner.yellowWon
  | Color.empty => Winner.unset

/-- The turn flip `if CurrentPlayer == Red then Yellow else Red`. -/
def flipTurn (c : Color) : Color := if c = Color.red then Color.yellow else Color.red

/-- The session state `handleMove` reads and writes: board, turn marker,
result (I/O fields of `GameState` are dropped). -/
structure Game where
  board : Board
  currentPlayer : Color
  winner : Winner
deriving DecidableEq, Repr

/-- How `handleMove` classified the move (which branch ran). -/
inductive MoveOutcome where
  | accepted
  | rejFinished
  | rejWrongTurn
  | rejInvalidColumn
  | rejColumnFull
deriving DecidableEq, Repr

/-- Function `handleMove(game, player, col)` as a pure transition: the new session
state, the branch taken, and the error strings written to the acting
player's connection (sent only when `hasConn`, mirroring the
`player.Conn != nil` guards). -/
def handleMove (g : Game) (pcolor : Color) (hasConn : Bool) (col : Int) :
    Game × MoveOutcome × List String :=
  if g.winner ≠ Winner.unset then (g, MoveOutcome.rejFinished, [])
  else if pcolor ≠ g.currentPlayer then
    (g, MoveOutcome.rejWrongTurn, if hasConn then ["Not your turn"] else [])
  else if col < 0 ∨ 7 ≤ col then (g, MoveOutcome.rejInvalidColumn, [])
  else
    match findRow g.board col.toNat with
    | none => (g, MoveOutcome.rejColumnFull, if hasConn then ["Column is full"] else [])
    | some row =>
      let b1 := setCell g.board row col.toNat pcolor
      if checkWinner b1 (row : Int) col then
        ({ g with board := b1, winner := winnerOfColor pcolor }, MoveOutcome.accepted, [])
      else if isBoardFull b1 then
        ({ g with board := b1, winner := Winner.draw }, MoveOutcome.accepted, [])
      else
        ({ g with board := b1, currentPlayer := flipTurn g.currentPlayer },
         MoveOutcome.accepted, [])

/-- A seat as the disconnect path sees it: its side and its flags. -/
structure Seat where
  color : Color
  disconnected : Bool
deriving DecidableEq, Repr

/-- Which of the two seats of a session. -/
inductive SeatId where
  | one
  | two
deriving DecidableEq, Repr

def otherSeat : SeatId → SeatId
  | SeatId.one => SeatId.two
  | SeatId.two => SeatId.one

/-- A session as the forfeit timer sees it. -/
structure Session where
  game : Game
  seat1 : Seat
  seat2 : Seat
deriving DecidableEq, Repr

def seatOf (s : Session) : SeatId → Seat
  | SeatId.one => s.seat1
  | SeatId.two => s.seat2

/-- The grace-period timer body in `handleDisconnect`, firing for the seat
that disconnected: if that seat is still disconnected and the game has no
result yet, the opponent's color is written as winner; otherwise nothing
changes. No `checkWinner` call occurs on this path. -/
def forfeitFire (s : Session) (who : SeatId) : Session :=
  if (seatOf s who).disconnected ∧ s.game.winner = Winner.unset then
    { s with game := { s.game with winner := winnerOfColor (seatOf s (otherSeat who)).color } }
  else s

/-- A `Player` as the matchmaker sees it; `conn` is an opaque connection
identifier (`none` models a nil `*websocket.Conn`). -/
structure MPlayer where
  username : String
  color : Color
  conn : Option Nat
  disconnected : Bool
deriving DecidableEq, Repr

/-- A `GameState` as the matchmaker sees it: the session state plus the two
seats (`player2 = none` models a nil `Player2`). -/
structure MGame where
  game : Game
  player1 : MPlayer
  player2 : Option MPlayer
  isBot : Bool
deriving DecidableEq, Repr

/-- A waiting entry of `gs.waitingPlayers` (username plus its connection). -/
structure WPlayer where
  username : String
  conn : Nat
deriving DecidableEq, Repr

/-- The matchmaker's shared state: the session registry and the queue. -/
structure MMState where
  games : List MGame
  waiting : List WPlayer
deriving DecidableEq, Repr

/-- The first rejoin test in `matchPlayer`: non-terminal game whose seat 1
carries this username and is marked disconnected. -/
def canRejoin1 (g : MGame) (u : String) : Bool :=
  (g.game.winner == Winner.unset) && (g.player1.username == u) && g.player1.disconnected

/-- The second rejoin test: seat 2 exists, carries this username, and is
marked disconnected. -/
def canRejoin2 (g : MGame) (u : String) : Bool :=
  (g.game.winner == Winner.unset) &&
    (match g.player2 with
     | some p2 => (p2.username == u) && p2.disconnected
     | none => false)

/-- Reattaching to seat 1: connection replaced, disconnected flag cleared. -/
def reattach1 (g : MGame) (conn : Nat) : MGame :=
  { g with player1 := { g.player1 with conn := some conn, disconnected := false } }

/-- Reattaching to seat 2: connection replaced, disconnected flag cleared. -/
def reattach2 (g : MGame) (conn : Nat) : MGame :=
  { g with player2 := g.player2.map fun p2 => { p2 with conn := some conn, disconnected := false } }

/-- The rejoin loop over `gs.games`: find the first non-terminal game with a
disconnected seat for this username, reattach, and return the updated
registry together with the updated game. -/
def rejoinScan : List MGame → String → Nat → Option (List MGame × MGame)
  | [], _, _ => none
  | g :: rest, u, conn =>
    if canRejoin1 g u then
      let g' := reattach1 g conn
      some (g' :: rest, g')
    else if canRejoin2 g u then
      let g' := reattach2 g conn
      some (g' :: rest, g')
    else (rejoinScan rest u conn).map fun p => (g :: p.1, p.2)

/-- Call `createGame(p1, p2, false)`: fresh board, first joiner red and to move,
second joiner yellow. -/
def createGame (p1 p2 : WPlayer) : MGame :=
  { game := { board := emptyBoard, currentPlayer := Color.red, winner := Winner.unset },
    player1 := { username := p1.username, color := Color.red, conn := some p1.conn,
                 disconnected := false },
    player2 := some { username := p2.username, color := Color.yellow, conn := some p2.conn,
                      disconnected := false },
    isBot := false }

/-- Call `createGame(player, bot, true)` from the fallback timer: the bot seat has
no connection. -/
def createBotGame (p1 : WPlayer) : MGame :=
  { game := { board := emptyBoard, currentPlayer := Color.red, winner := Winner.unset },
    player1 := { username := p1.username, color := Color.red, conn := some p1.conn,
                 disconnected := false },
    player2 := some { username := "Bot", color := Color.yellow, conn := none,
                      disconnected := false },
    isBot := true }

/-- What `matchPlayer` did for the joiner. -/
inductive JoinResult where
  | reattached (g : MGame)
  | paired (g : MGame)
  | queued
deriving DecidableEq, Repr

/-- Outbound messages the matchmaker produces on a join. -/
inductive MMsg where
  | waitingMsg
  | stateMsg (b : Board) (cp : Color)
  | startMsg
deriving DecidableEq, Repr

/-- Function `matchPlayer(player)`: rejoin scan first; else pop the queue head and
pair; else append to the queue (and schedule the fallback timer). -/
def matchPlayer (st : MMState) (u : String) (conn : Nat) :
    MMState × JoinResult × List MMsg :=
  match rejoinScan st.games u conn with
  | some (games', g') =>
    ({ st with games := games' }, JoinResult.reattached g',
     [MMsg.stateMsg g'.game.board g'.game.currentPlayer])
  | none =>
    match st.waiting with
    | opp :: rest =>
      let g := createGame opp { username := u, conn := conn }
      ({ games := st.games ++ [g], waiting := rest }, JoinResult.paired g, [MMsg.startMsg])
    | [] =>
      ({ st with waiting := st.waiting ++ [{ username := u, conn := conn }] },
       JoinResult.queued, [MMsg.waitingMsg])

/-- The 10-second fallback timer body: if the captured waiting player is
still queued, remove them and start a bot game; otherwise do nothing. -/
def botTimerFire (st : MMState) (p : WPlayer) : MMState :=
  if p ∈ st.waiting then
    { games := st.games ++ [createBotGame p], waiting := st.waiting.erase p }
  else st

/-- Matchmaker states reachable from the empty server by joins and fallback
timer firings; `env` lets the session registry change arbitrarily between
queue operations (moves, disconnect marking) without touching the queue. -/
inductive Reach : MMState → Prop
  | init : Reach { games := [], waiting := [] }
  | join (s : MMState) (u : String) (conn : Nat) : Reach s → Reach (matchPlayer s u conn).1
  | timer (s : MMState) (p : WPlayer) : Reach s → Reach (botTimerFire s p)
  | env (s : MMState) (G : List MGame) : Reach s → Reach { games := G, waiting := s.waiting }

/-! ### List helper lemmas -/

theorem set_getD_self {α : Type} :
    ∀ (l : List α) (n : Nat) (d : α), l.set n (l.getD n d) = l
  | [], _, _ => rfl
  | _ :: _, 0, _ => rfl
  | a :: t, n + 1, d => congrArg (a :: ·) (set_getD_self t n d)

theorem getD_set_self {α : Type} (l : List α) (n : Nat) (a d : α) (h : n < l.length) :
    (l.set n a).getD n d = a := by
  simp [List.getD, List.getElem?_set_self, h]

theorem getD_set_ne {α : Type} (l : List α) (n m : Nat) (a d : α) (h : n ≠ m) :
    (l.set n a).getD m d = l.getD m d := by
  simp [List.getD, List.getElem?_set_ne h]

/-! ### Cell read/write lemmas -/

/-- A board with the shape `createGame` builds: 6 rows of 7 cells. -/
def boardWF (b : Board) : Prop := b.length = ROWS ∧ ∀ row ∈ b, row.length = COLS

theorem emptyBoard_wf : boardWF emptyBoard := by
  constructor
  · simp [emptyBoard, ROWS]
  · intro row hrow
    simp [emptyBoard] at hrow
    simp [hrow, COLS]

theorem getCell_setCell_self (b : Board) (r c : Nat) (v : Color)
    (hwf : boardWF b) (hr : r < ROWS) (hc : c < COLS) :
    getCell (setCell b r c v) r c = v := by
  obtain ⟨hlen, hrows⟩ := hwf
  have hrb : r < b.length := by omega
  have hrow : (b.getD r []).length = COLS := by
    apply hrows
    have : b.getD r [] = b[r] := List.getD_eq_getElem b [] hrb
    rw [this]
    exact List.getElem_mem hrb
  unfold getCell setCell
  rw [getD_set_self _ _ _ _ (by simpa using hrb)]
  rw [getD_set_self _ _ _ _ (by omega)]

theorem getCell_setCell_ne (b : Board) (r c r' c' : Nat) (v : Color)
    (h : r ≠ r' ∨ c ≠ c') :
    getCell (setCell b r c v) r' c' = getCell b r' c' := by
  unfold getCell setCell
  by_cases hr : r = r'
  · subst hr
    have hc : c ≠ c' := by tauto
    by_cases hrb : r < b.length
    · rw [getD_set_self _ _ _ _ (by simpa using hrb)]
      rw [getD_set_ne _ _ _ _ _ hc]
    · rw [List.set_eq_of_length_le (by omega)]
  · rw [getD_set_ne _ _ _ _ _ hr]

/-- Undoing a write to a cell that was empty restores the original board
(the rollback at the end of `canWin`). -/
theorem setCell_restore (b : Board) (r c : Nat) (v : Color)
    (h : getCell b r c = Color.empty) :
    setCell (setCell b r c v) r c Color.empty = b := by
  unfold setCell
  by_cases hrb : r < b.length
  · rw [getD_set_self _ _ _ _ (by simpa using hrb)]
    rw [List.set_set]
    have hcell : (b.getD r []).getD c Color.empty = Color.empty := h
    calc b.set r (((b.getD r []).set c v).set c Color.empty)
        = b.set r ((b.getD r []).set c Color.empty) := by rw [List.set_set]
      _ = b.set r ((b.getD r []).set c ((b.getD r []).getD c Color.empty)) := by rw [hcell]
      _ = b.set r (b.getD r []) := by rw [set_getD_self]
      _ = b := set_getD_self b r []
  · rw [List.set_eq_of_length_le (le_of_not_lt hrb),
        List.set_eq_of_length_le (le_of_not_lt hrb)]

/-! ### findRow lemmas -/

theorem findRowAux_some (b : Board) (col : Nat) :
    ∀ fuel r, findRowAux b col fuel = some r →
      getCell b r col = Color.empty ∧ r < fuel ∧
      ∀ r', r < r' → r' < fuel → getCell b r' col ≠ Color.empty := by
  intro fuel
  induction fuel with
  | zero => intro r h; simp [findRowAux] at h
  | succ k ih =>
    intro r h
    unfold findRowAux at h
    split at h
    · rename_i hemp
      cases h
      exact ⟨hemp, Nat.lt_succ_self _, fun r' h1 h2 => by omega⟩
    · rename_i hne
      obtain ⟨h1, h2, h3⟩ := ih r h
      refine ⟨h1, by omega, fun r' hr1 hr2 => ?_⟩
      by_cases hk : r' = k
      · subst hk; exact hne
      · exact h3 r' hr1 (by omega)

theorem findRowAux_none (b : Board) (col : Nat) :
    ∀ fuel, findRowAux b col fuel = none ↔
      ∀ r, r < fuel → getCell b r col ≠ Color.empty := by
  intro fuel
  induction fuel with
  | zero => simp [findRowAux]
  | succ k ih =>
    unfold findRowAux
    split
    · rename_i hemp
      simp only [iff_false_intro (Option.some_ne_none k), false_iff]
      intro hall
      exact hall k (Nat.lt_succ_self _) hemp
    · rename_i hne
      rw [ih]
      constructor
      · intro hall r hr
        by_cases hk : r = k
        · subst hk; exact hne
        · exact hall r (by omega)
      · intro hall r hr
        exact hall r (by omega)

theorem findRow_some (b : Board) (col : Nat) (r : Nat) (h : findRow b col = some r) :
    getCell b r col = Color.empty ∧ r < ROWS ∧
      ∀ r', r < r' → r' < ROWS → getCell b r' col ≠ Color.empty :=
  findRowAux_some b col ROWS r h

theorem findRow_none (b : Board) (col : Nat) :
    findRow b col = none ↔ ∀ r, r < ROWS → getCell b r col ≠ Color.empty :=
  findRowAux_none b col ROWS

theorem findRow_isSome_of_empty (b : Board) (col r : Nat)
    (hr : r < ROWS) (h : getCell b r col = Color.empty) :
    findRow b col ≠ none := by
  intro hnone
  exact (findRow_none b col).mp hnone r hr h

/-- C8. The heuristic's simulate-then-check test leaves the board exactly as
it found it: after `canWin` writes the hypothetical disc, runs the win
check, and erases the cell again, the resulting board is the input board —
for every board, column and color, on both the win-now and the block
evaluations (which call the same `canWin`). -/
theorem canWin_restores_board (b : Board) (col : Nat) (color : Color) :
    (canWinSt b col color).2 = b := by
  unfold canWinSt
  cases hfr : findRow b col with
  | none => rfl
  | some row =>
    simp only
    exact setCell_restore b row col color (findRow_some b col row hfr).1

/-! ### Specification-side win predicate (for C1) -/

/-- One aligned window of four cells: starting at offset `s` along axis
`(dr,dc)` from `(row,col)`, all four cells are in the grid and hold
`color`. -/
def fourWindow (b : Board) (color : Color) (row col dr dc s : Int) : Prop :=
  ∀ j : Fin 4, inGrid (row + dr * (s + (j : Nat))) (col + dc * (s + (j : Nat))) = true ∧
    cellAt b (row + dr * (s + (j : Nat))) (col + dc * (s + (j : Nat))) = color

instance (b : Board) (color : Color) (row col dr dc s : Int) :
    Decidable (fourWindow b color row col dr dc s) := by
  unfold fourWindow; infer_instance

/-- The claim's win condition, written from the spec: some axis through
`(row,col)` contains at least four contiguous cells of the cell's color
including `(row,col)` itself — i.e. some aligned window of four same-color
cells covers `(row,col)` (window start offsets `-3..0`). -/
def hasFourThrough (b : Board) (row col : Int) : Prop :=
  ∃ d ∈ dirs, ∃ s : Fin 4,
    fourWindow b (cellAt b row col) row col d.1 d.2 ((s : Nat) - 3)

instance (b : Board) (row col : Int) : Decidable (hasFourThrough b row col) := by
  unfold hasFourThrough; infer_instance

/-- All steps `1..n` along `(dr,dc)` from `(r,c)` stay in the grid and hold
`color`. -/
def matchRun (b : Board) (color : Color) (r c dr dc : Int) (n : Nat) : Prop :=
  ∀ i : Nat, 1 ≤ i → i ≤ n →
    inGrid (r + dr * (i : Nat)) (c + dc * (i : Nat)) = true ∧
    cellAt b (r + dr * (i : Nat)) (c + dc * (i : Nat)) = color

theorem countDir_le_fuel (b : Board) (color : Color) (dr dc : Int) :
    ∀ fuel r c, countDir b color r c dr dc fuel ≤ fuel := by
  intro fuel
  induction fuel with
  | zero => intro r c; simp [countDir]
  | succ k ih =>
    intro r c
    unfold countDir
    split
    · have := ih (r + dr) (c + dc); omega
    · omega

theorem countDir_sound (b : Board) (color : Color) (dr dc : Int) :
    ∀ fuel r c, matchRun b color r c dr dc (countDir b color r c dr dc fuel) := by
  intro fuel
  induction fuel with
  | zero =>
    intro r c i h1 h2
    simp [countDir] at h2
    omega
  | succ k ih =>
    intro r c
    unfold countDir
    split
    · rename_i hguard
      rw [Bool.and_eq_true, beq_iff_eq] at hguard
      intro i h1 h2
      match i, h1 with
      | 1, _ =>
        constructor
        · simpa using hguard.1
        · simpa using hguard.2
      | (n + 2), _ =>
        have hn : 1 ≤ n + 1 ∧ n + 1 ≤ countDir b color (r + dr) (c + dc) dr dc k := by
          omega
        have := ih (r + dr) (c + dc) (n + 1) hn.1 hn.2
        have harith : ∀ x dx : Int, x + dx + dx * ((n : Int) + 1) = x + dx * ((n : Int) + 2) := by
          intro x dx; ring
        constructor
        · have h1' := this.1
          push_cast at h1' ⊢
          rw [← harith r dr, ← harith c dc]
          exact h1'
        · have h2' := this.2
          push_cast at h2' ⊢
          rw [← harith r dr, ← harith c dc]
          exact h2'
    · intro i h1 h2
      omega

theorem countDir_complete (b : Board) (color : Color) (dr dc : Int) :
    ∀ fuel k r c, matchRun b color r c dr dc k →
      min k fuel ≤ countDir b color r c dr dc fuel := by
  intro fuel
  induction fuel with
  | zero => intro k r c _; omega
  | succ m ih =>
    intro k r c hrun
    match k with
    | 0 => omega
    | k' + 1 =>
      have h1 := hrun 1 (by omega) (by omega)
      unfold countDir
      rw [if_pos]
      · have hrun' : matchRun b color (r + dr) (c + dc) dr dc k' := by
          intro i hi1 hi2
          have := hrun (i + 1) (by omega) (by omega)
          have harith : ∀ x dx : Int, x + dx + dx * ((i : Int)) = x + dx * ((i : Int) + 1) := by
            intro x dx; ring
          constructor
          · have h1' := this.1
            push_cast at h1' ⊢
            rw [harith r dr, harith c dc]
            exact h1'
          · have h2' := this.2
            push_cast at h2' ⊢
            rw [harith r dr, harith c dc]
            exact h2'
        have := ih k' (r + dr) (c + dc) hrun'
        omega
      · rw [Bool.and_eq_true, beq_iff_eq]
        constructor
        · have := h1.1; simpa using this
        · have := h1.2; simpa using this

/-- Per-axis equivalence: the capped two-sided count of `checkWinner`
reaches 4 exactly when a window of four aligned same-color cells covers
`(row,col)` on that axis. -/
theorem axisCount_iff_window (b : Board) (color : Color) (row col dr dc : Int)
    (hin : inGrid row col = true) (hcell : cellAt b row col = color) :
    4 ≤ axisCount b color row col dr dc ↔
      ∃ s : Fin 4, fourWindow b color row col dr dc ((s : Nat) - 3) := by
  constructor
  · intro h
    have hfle : countDir b color row col dr dc 3 ≤ 3 := countDir_le_fuel b color dr dc 3 row col
    have hble : countDir b color row col (-dr) (-dc) 3 ≤ 3 :=
      countDir_le_fuel b color (-dr) (-dc) 3 row col
    set f := countDir b color row col dr dc 3 with hf
    set bb := countDir b color row col (-dr) (-dc) 3 with hbb
    have hsum : 3 ≤ f + bb := by
      unfold axisCount at h
      omega
    have hfwd : matchRun b color row col dr dc f := countDir_sound b color dr dc 3 row col
    have hbwd : matchRun b color row col (-dr) (-dc) bb :=
      countDir_sound b color (-dr) (-dc) 3 row col
    refine ⟨⟨f, by omega⟩, ?_⟩
    intro j
    show inGrid (row + dr * (((f : Int) - 3) + (j : Nat))) (col + dc * (((f : Int) - 3) + (j : Nat))) = true ∧
      cellAt b (row + dr * (((f : Int) - 3) + (j : Nat))) (col + dc * (((f : Int) - 3) + (j : Nat))) = color
    set o : Int := ((f : Int) - 3) + (j : Nat) with ho
    have hj3 : ((j : Nat) : Int) ≤ 3 := by
      have := j.isLt
      omega
    have hj0 : (0 : Int) ≤ (j : Nat) := by positivity
    rcases lt_trichotomy o 0 with hneg | hzero | hpos
    · have hnn : (0 : Int) ≤ -o := by omega
      have h1 : 1 ≤ (-o).toNat := by omega
      have h2 : (-o).toNat ≤ bb := by omega
      have := hbwd (-o).toNat h1 h2
      have hcast : (((-o).toNat : Nat) : Int) = -o := Int.toNat_of_nonneg hnn
      rw [hcast] at this
      have e1 : row + -dr * -o = row + dr * o := by ring
      have e2 : col + -dc * -o = col + dc * o := by ring
      rw [e1, e2] at this
      exact this
    · rw [hzero]
      simpa using ⟨hin, hcell⟩
    · have hnn : (0 : Int) ≤ o := by omega
      have h1 : 1 ≤ o.toNat := by omega
      have h2 : o.toNat ≤ f := by omega
      have := hfwd o.toNat h1 h2
      have hcast : ((o.toNat : Nat) : Int) = o := Int.toNat_of_nonneg hnn
      rw [hcast] at this
      exact this
  · rintro ⟨s, hwin⟩
    have hs3 : (s : Nat) ≤ 3 := by
      have := s.isLt
      omega
    have hk1 : matchRun b color row col dr dc (s : Nat) := by
      intro i h1 h2
      have hjlt : i + 3 - (s : Nat) < 4 := by omega
      have := hwin ⟨i + 3 - (s : Nat), hjlt⟩
      have hoff : ((s : Nat) : Int) - 3 + ((i + 3 - (s : Nat) : Nat) : Int) = (i : Int) := by
        have hle : (s : Nat) ≤ i + 3 := by omega
        push_cast [Nat.cast_sub hle]
        ring
      simp only [Fin.val_mk] at this
      rw [hoff] at this
      exact this
    have hk2 : matchRun b color row col (-dr) (-dc) (3 - (s : Nat)) := by
      intro i h1 h2
      have hjlt : 3 - (s : Nat) - i < 4 := by omega
      have := hwin ⟨3 - (s : Nat) - i, hjlt⟩
      have hoff : ((s : Nat) : Int) - 3 + ((3 - (s : Nat) - i : Nat) : Int) = -(i : Int) := by
        have hle1 : (s : Nat) + i ≤ 3 := by omega
        push_cast [Nat.cast_sub (by omega : (s : Nat) ≤ 3), Nat.cast_sub (by omega : i ≤ 3 - (s : Nat))]
        ring
      simp only [Fin.val_mk] at this
      rw [hoff] at this
      have e1 : row + dr * -(i : Int) = row + -dr * (i : Int) := by ring
      have e2 : col + dc * -(i : Int) = col + -dc * (i : Int) := by ring
      rw [e1, e2] at this
      exact this
    have c1 := countDir_complete b color dr dc 3 (s : Nat) row col hk1
    have c2 := countDir_complete b color (-dr) (-dc) 3 (3 - (s : Nat)) row col hk2
    unfold axisCount
    omega

/-- C1. For every board and every in-grid cell holding a non-empty color,
`checkWinner` returns true iff at least one of the four axes through the
cell (horizontal, vertical, the two diagonals) contains four or more
contiguous cells of that color including the cell itself; cells outside
the 6x7 grid terminate the count in each direction (built into `inGrid`
inside `fourWindow`). -/
theorem checkWinner_iff_hasFourThrough (b : Board) (row col : Int)
    (hin : inGrid row col = true) (hne : cellAt b row col ≠ Color.empty) :
    checkWinner b row col = true ↔ hasFourThrough b row col := by
  unfold checkWinner hasFourThrough
  rw [if_neg hne, List.any_eq_true]
  simp only [decide_eq_true_eq]
  exact exists_congr fun d =>
    and_congr_right fun _ => axisCount_iff_window b (cellAt b row col) row col d.1 d.2 hin rfl

/-! ### Placement and the gravity invariant (C2) -/

/-- A column is a contiguous run of filled cells starting at the bottom
(row 5): any filled cell has only filled cells below it. -/
def colGravity (b : Board) (col : Nat) : Prop :=
  ∀ r r' : Nat, r ≤ r' → r' < ROWS →
    getCell b r col ≠ Color.empty → getCell b r' col ≠ Color.empty

/-- C2. Placing a disc writes it at the lowest empty row of the column
(bottom-up search): the written row is empty beforehand, every row below it
is filled (never above a lower empty cell), the result is exactly that one
cell updated, columns satisfying the gravity invariant still satisfy it
afterwards; and on a full column the operation fails, returning no board. -/
theorem place_lowest_empty (b : Board) (col : Nat) (color : Color)
    (hwf : boardWF b) (hcol : col < COLS) (hcolor : color ≠ Color.empty) :
    (∀ r bd, place b col color = some (r, bd) →
      r < ROWS ∧ getCell b r col = Color.empty ∧
      (∀ r', r < r' → r' < ROWS → getCell b r' col ≠ Color.empty) ∧
      bd = setCell b r col color ∧ getCell bd r col = color ∧
      (∀ c, colGravity b c → colGravity bd c)) ∧
    (place b col color = none ↔ ∀ r, r < ROWS → getCell b r col ≠ Color.empty) := by
  constructor
  · intro r bd h
    unfold place at h
    cases hfr : findRow b col with
    | none => rw [hfr] at h; simp at h
    | some r0 =>
      rw [hfr] at h
      simp only [Option.map_some', Option.some.injEq, Prod.mk.injEq] at h
      obtain ⟨hr0, hbd⟩ := h
      rw [hr0] at hfr hbd
      obtain ⟨hemp, hlt, hbelow⟩ := findRow_some b col r hfr
      subst hbd
      refine ⟨hlt, hemp, hbelow, rfl, ?_, ?_⟩
      · exact getCell_setCell_self b r col color hwf hlt hcol
      · intro c hg r1 r2 hle hr2 h1
        by_cases hcc : c = col
        · subst hcc
          by_cases h2r : r2 = r
          · subst h2r
            rw [getCell_setCell_self b r2 c color hwf hlt hcol]
            exact hcolor
          · rw [getCell_setCell_ne b r c r2 c color (Or.inl (fun he => h2r he.symm))]
            by_cases h1r : r1 = r
            · subst h1r
              exact hbelow r2 (by omega) hr2
            · rw [getCell_setCell_ne b r c r1 c color (Or.inl (fun he => h1r he.symm))] at h1
              exact hg r1 r2 hle hr2 h1
        · rw [getCell_setCell_ne b r col r2 c color (Or.inr (fun he => hcc he.symm))]
          rw [getCell_setCell_ne b r col r1 c color (Or.inr (fun he => hcc he.symm))] at h1
          exact hg r1 r2 hle hr2 h1
  · rw [← findRow_none b col]
    unfold place
    cases findRow b col <;> simp

/-! ### The heuristic's decision order (C3) -/

/-- Spec-side simulate-then-check: would placing this color in this column
complete a win (the spec's "simulate via place+checkWin, then undo"; in a
pure embedding no undo is needed — compare `canWin_restores_board`)? -/
def wouldWin (b : Board) (col : Nat) (color : Color) : Bool :=
  match place b col color with
  | none => false
  | some (r, bd) => checkWinner bd r col

/-- Spec-side "the column has room": its top cell is empty (equivalent,
under the gravity invariant, to the column not being full). -/
def hasRoom (b : Board) (col : Nat) : Bool := getCell b 0 col == Color.empty

/-- The claim's decision order, first match wins: leftmost own winning
column; else leftmost opponent winning column (block); else center column 3
if it has room; else the first column with room in the fixed order
{2,4,1,5,0,6}; else no move available (-1). Own side yellow, opponent red,
as the bot is seated. -/
def chooseColumnSpec (b : Board) : Int :=
  match colScan.find? (fun col => wouldWin b col Color.yellow) with
  | some col => (col : Int)
  | none =>
    match colScan.find? (fun col => wouldWin b col Color.red) with
    | some col => (col : Int)
    | none =>
      if hasRoom b 3 then 3
      else
        match prefOrder.find? (fun col => hasRoom b col) with
        | some col => (col : Int)
        | none => -1

theorem canWinB_eq_wouldWin (b : Board) (col : Nat) (color : Color) :
    canWinB b col color = wouldWin b col color := by
  unfold canWinB canWinSt wouldWin place
  cases findRow b col <;> simp

theorem find?_avail_eq_hasRoom (b : Board) :
    ∀ l : List Nat, (∀ c ∈ l, c < COLS) →
      l.find? (fun col => isColumnAvailable b col) = l.find? (fun col => hasRoom b col) := by
  intro l
  induction l with
  | nil => intro _; rfl
  | cons a t ih =>
    intro h
    have ha : a < COLS := h a (List.mem_cons_self a t)
    have heq : isColumnAvailable b a = hasRoom b a := by
      simp [isColumnAvailable, hasRoom, ha]
    cases hr : hasRoom b a with
    | true =>
      rw [List.find?_cons_of_pos t (by rw [heq]; exact hr), List.find?_cons_of_pos t hr]
    | false =>
      rw [List.find?_cons_of_neg t (by simp [heq, hr]), List.find?_cons_of_neg t (by simp [hr]),
          ih (fun c hc => h c (List.mem_cons_of_mem a hc))]

/-- C3. The bot's column choice implements exactly the claimed decision
order: win-now (leftmost), else block (leftmost), else center, else the
fixed preference order, else -1. In particular a winning column outranks an
available block, since the win scan runs first. -/
theorem getBotMove_eq_chooseColumnSpec (b : Board) : getBotMove b = chooseColumnSpec b := by
  unfold getBotMove chooseColumnSpec
  have h1 : (fun col => canWinB b col Color.yellow) = fun col => wouldWin b col Color.yellow :=
    funext fun col => canWinB_eq_wouldWin b col Color.yellow
  have h2 : (fun col => canWinB b col Color.red) = fun col => wouldWin b col Color.red :=
    funext fun col => canWinB_eq_wouldWin b col Color.red
  have h3 : isColumnAvailable b 3 = hasRoom b 3 := by
    simp [isColumnAvailable, hasRoom, COLS]
  have h4 : prefOrder.find? (fun col => isColumnAvailable b col) =
      prefOrder.find? (fun col => hasRoom b col) :=
    find?_avail_eq_hasRoom b prefOrder (by intro c hc; fin_cases hc <;> simp [COLS])
  rw [h1, h2, h3, h4]

/-! ### Safety of the bot's row search (C10) -/

/-- A board whose column 0 has a filled top cell but an empty bottom cell
(not reachable by gravity play, but a board nonetheless): yellow at the
bottom of columns 1-3, red on top of column 0. -/
def topBlockedBoard : Board :=
  [[Color.red, Color.empty, Color.empty, Color.empty, Color.empty, Color.empty, Color.empty]] ++
  List.replicate 4 (List.replicate 7 Color.empty) ++
  [[Color.empty, Color.yellow, Color.yellow, Color.yellow, Color.empty, Color.empty,
    Color.empty]]

/-- C10 counterexample. On `topBlockedBoard` the bot chooses column 0 (it
wins there by placing at the bottom), yet the top cell of column 0 is
occupied — refuting "whenever it returns c ≠ -1, the top cell of column c
is empty" as stated over every board. -/
theorem getBotMove_top_cell_cex :
    getBotMove topBlockedBoard = 0 ∧ getCell topBlockedBoard 0 0 = Color.red := by
  decide

/-- C10 (amended). The bot returns -1 only when every column's top cell is
occupied; whenever it returns a column, that column contains an empty cell,
so the bottom-up row search in `makeBotMove` succeeds and its `row == -1`
branch is unreachable. (As stated over every board, "the top cell of the
chosen column is empty" fails — see the counterexample — because the
win/block scans only require some empty cell; on gravity-respecting boards
the two coincide.) -/
theorem getBotMove_safe (b : Board) :
    (getBotMove b = -1 → ∀ col, col < COLS → getCell b 0 col ≠ Color.empty) ∧
    (getBotMove b ≠ -1 →
      ∃ col : Nat, getBotMove b = (col : Int) ∧ col < COLS ∧ findRow b col ≠ none) := by
  have hCanWin : ∀ col color, canWinB b col color = true → findRow b col ≠ none := by
    intro col color hc hn
    unfold canWinB canWinSt at hc
    rw [hn] at hc
    simp at hc
  have hAvail : ∀ col, isColumnAvailable b col = true → findRow b col ≠ none := by
    intro col hc
    unfold isColumnAvailable at hc
    rw [Bool.and_eq_true, beq_iff_eq] at hc
    exact findRow_isSome_of_empty b col 0 (by simp [ROWS]) hc.2
  unfold getBotMove
  cases hy : colScan.find? (fun col => canWinB b col Color.yellow) with
  | some c =>
    have hm := List.mem_of_find?_eq_some hy
    have hlt : c < COLS := by
      show c < 7
      simp [colScan] at hm
      omega
    have hp : canWinB b c Color.yellow = true := by simpa using List.find?_some hy
    refine ⟨fun hcontra => ?_, fun _ => ⟨c, rfl, hlt, hCanWin c _ hp⟩⟩
    have h2 : (c : Int) = -1 := hcontra
    exact absurd h2 (by omega)
  | none =>
    cases hr : colScan.find? (fun col => canWinB b col Color.red) with
    | some c =>
      have hm := List.mem_of_find?_eq_some hr
      have hlt : c < COLS := by
        show c < 7
        simp [colScan] at hm
        omega
      have hp : canWinB b c Color.red = true := by simpa using List.find?_some hr
      refine ⟨fun hcontra => ?_, fun _ => ⟨c, rfl, hlt, hCanWin c _ hp⟩⟩
      have h2 : (c : Int) = -1 := hcontra
      exact absurd h2 (by omega)
    | none =>
      by_cases hc3 : isColumnAvailable b 3 = true
      · rw [if_pos hc3]
        refine ⟨fun hcontra => ?_, fun _ => ⟨3, rfl, by simp [COLS], hAvail 3 hc3⟩⟩
        have h2 : (3 : Int) = -1 := hcontra
        exact absurd h2 (by omega)
      · rw [if_neg hc3]
        cases hp : prefOrder.find? (fun col => isColumnAvailable b col) with
        | some c =>
          have hm := List.mem_of_find?_eq_some hp
          have hlt : c < COLS := by
            show c < 7
            simp [prefOrder] at hm
            omega
          have hav : isColumnAvailable b c = true := by simpa using List.find?_some hp
          refine ⟨fun hcontra => ?_, fun _ => ⟨c, rfl, hlt, hAvail c hav⟩⟩
          have h2 : (c : Int) = -1 := hcontra
          exact absurd h2 (by omega)
        | none =>
          refine ⟨fun _ col hlt hempty => ?_, fun hfalse => absurd rfl hfalse⟩
          have hall : ∀ x ∈ prefOrder, ¬ isColumnAvailable b x = true := by
            intro x hx
            simpa using List.find?_eq_none.mp hp x hx
          have hne : ¬ isColumnAvailable b col = true := by
            have h7 : col < 7 := hlt
            interval_cases col
            · exact hall 0 (by simp [prefOrder])
            · exact hall 1 (by simp [prefOrder])
            · exact hall 2 (by simp [prefOrder])
            · exact hc3
            · exact hall 4 (by simp [prefOrder])
            · exact hall 5 (by simp [prefOrder])
            · exact hall 6 (by simp [prefOrder])
          exact hne (by simp [isColumnAvailable, hlt, hempty])

/-! ### The move handler's transitions (C4, C5) -/

/-- Complete branch characterization of `handleMove`: exactly one of the
five branches runs, and each determines the full output. -/
theorem handleMove_branch (g : Game) (p : Color) (hc : Bool) (col : Int) :
    (g.winner ≠ Winner.unset ∧ handleMove g p hc col = (g, MoveOutcome.rejFinished, [])) ∨
    (g.winner = Winner.unset ∧ p ≠ g.currentPlayer ∧
      handleMove g p hc col =
        (g, MoveOutcome.rejWrongTurn, if hc then ["Not your turn"] else [])) ∨
    (g.winner = Winner.unset ∧ p = g.currentPlayer ∧ (col < 0 ∨ 7 ≤ col) ∧
      handleMove g p hc col = (g, MoveOutcome.rejInvalidColumn, [])) ∨
    (g.winner = Winner.unset ∧ p = g.currentPlayer ∧ ¬(col < 0 ∨ 7 ≤ col) ∧
      findRow g.board col.toNat = none ∧
      handleMove g p hc col =
        (g, MoveOutcome.rejColumnFull, if hc then ["Column is full"] else [])) ∨
    (∃ row, g.winner = Winner.unset ∧ p = g.currentPlayer ∧ ¬(col < 0 ∨ 7 ≤ col) ∧
      findRow g.board col.toNat = some row ∧
      ((checkWinner (setCell g.board row col.toNat p) (row : Int) col = true ∧
        handleMove g p hc col =
          ({ board := setCell g.board row col.toNat p, currentPlayer := g.currentPlayer,
             winner := winnerOfColor p }, MoveOutcome.accepted, [])) ∨
       (checkWinner (setCell g.board row col.toNat p) (row : Int) col = false ∧
        isBoardFull (setCell g.board row col.toNat p) = true ∧
        handleMove g p hc col =
          ({ board := setCell g.board row col.toNat p, currentPlayer := g.currentPlayer,
             winner := Winner.draw }, MoveOutcome.accepted, [])) ∨
       (checkWinner (setCell g.board row col.toNat p) (row : Int) col = false ∧
        isBoardFull (setCell g.board row col.toNat p) = false ∧
        handleMove g p hc col =
          ({ board := setCell g.board row col.toNat p,
             currentPlayer := flipTurn g.currentPlayer, winner := g.winner },
           MoveOutcome.accepted, [])))) := by
  by_cases h1 : g.winner ≠ Winner.unset
  · exact Or.inl ⟨h1, by unfold handleMove; rw [if_pos h1]⟩
  · rw [not_not] at h1
    by_cases h2 : p ≠ g.currentPlayer
    · refine Or.inr (Or.inl ⟨h1, h2, ?_⟩)
      unfold handleMove
      rw [if_neg (by simpa using h1), if_pos h2]
    · rw [not_not] at h2
      by_cases h3 : col < 0 ∨ 7 ≤ col
      · refine Or.inr (Or.inr (Or.inl ⟨h1, h2, h3, ?_⟩))
        unfold handleMove
        rw [if_neg (by simpa using h1), if_neg (by simpa using h2), if_pos h3]
      · cases hfr : findRow g.board col.toNat with
        | none =>
          refine Or.inr (Or.inr (Or.inr (Or.inl ⟨h1, h2, h3, rfl, ?_⟩)))
          unfold handleMove
          rw [if_neg (by simpa using h1), if_neg (by simpa using h2), if_neg h3, hfr]
        | some row =>
          refine Or.inr (Or.inr (Or.inr (Or.inr ⟨row, h1, h2, h3, rfl, ?_⟩)))
          have hred : handleMove g p hc col =
              (if checkWinner (setCell g.board row col.toNat p) (row : Int) col then
                ({ board := setCell g.board row col.toNat p, currentPlayer := g.currentPlayer,
                   winner := winnerOfColor p }, MoveOutcome.accepted, [])
               else if isBoardFull (setCell g.board row col.toNat p) then
                ({ board := setCell g.board row col.toNat p, currentPlayer := g.currentPlayer,
                   winner := Winner.draw }, MoveOutcome.accepted, [])
               else
                ({ board := setCell g.board row col.toNat p,
                   currentPlayer := flipTurn g.currentPlayer, winner := g.winner },
                 MoveOutcome.accepted, [])) := by
            unfold handleMove
            rw [if_neg (by simpa using h1), if_neg (by simpa using h2), if_neg h3, hfr]
          by_cases hw : checkWinner (setCell g.board row col.toNat p) (row : Int) col = true
          · refine Or.inl ⟨hw, ?_⟩
            rw [hred, if_pos hw]
          · rw [Bool.not_eq_true] at hw
            by_cases hf : isBoardFull (setCell g.board row col.toNat p) = true
            · refine Or.inr (Or.inl ⟨hw, hf, ?_⟩)
              rw [hred, if_neg (by simp [hw]), if_pos hf]
            · rw [Bool.not_eq_true] at hf
              refine Or.inr (Or.inr ⟨hw, hf, ?_⟩)
              rw [hred, if_neg (by simp [hw]), if_neg (by simp [hf])]

/-- C4. An accepted move (game in progress, acting side holds the turn,
column in range and not full) transitions the session exactly as claimed:
a winning placement finishes the game with the acting side as winner, a
board-filling placement finishes it as a draw, and otherwise only the turn
marker flips; and once the result is set, every later move is rejected with
the session state returned untouched. -/
theorem handleMove_accept_transitions (g : Game) (pcolor : Color) (hasConn : Bool)
    (col : Int) (row : Nat)
    (hw : g.winner = Winner.unset)
    (ht : pcolor = g.currentPlayer)
    (hc0 : 0 ≤ col) (hc7 : col < 7)
    (hrow : findRow g.board col.toNat = some row) :
    ((handleMove g pcolor hasConn col).2.1 = MoveOutcome.accepted ∧
     (checkWinner (setCell g.board row col.toNat pcolor) (row : Int) col = true →
       (handleMove g pcolor hasConn col).1 =
         { board := setCell g.board row col.toNat pcolor,
           currentPlayer := g.currentPlayer, winner := winnerOfColor pcolor }) ∧
     (checkWinner (setCell g.board row col.toNat pcolor) (row : Int) col = false →
       isBoardFull (setCell g.board row col.toNat pcolor) = true →
       (handleMove g pcolor hasConn col).1 =
         { board := setCell g.board row col.toNat pcolor,
           currentPlayer := g.currentPlayer, winner := Winner.draw }) ∧
     (checkWinner (setCell g.board row col.toNat pcolor) (row : Int) col = false →
       isBoardFull (setCell g.board row col.toNat pcolor) = false →
       (handleMove g pcolor hasConn col).1 =
         { board := setCell g.board row col.toNat pcolor,
           currentPlayer := flipTurn g.currentPlayer, winner := Winner.unset })) ∧
    (∀ g' : Game, g'.winner ≠ Winner.unset →
      ∀ p h c, handleMove g' p h c = (g', MoveOutcome.rejFinished, [])) := by
  constructor
  · rcases handleMove_branch g pcolor hasConn col with
      ⟨hne, _⟩ | ⟨_, hne, _⟩ | ⟨_, _, hor, _⟩ | ⟨_, _, _, hnone, _⟩ |
      ⟨row', _, _, _, hfr, hcase⟩
    · exact absurd hw hne
    · exact absurd ht hne
    · omega
    · rw [hrow] at hnone; cases hnone
    · rw [hrow] at hfr
      injection hfr with hfr
      subst hfr
      rcases hcase with ⟨hwin, heq⟩ | ⟨hwin, hfull, heq⟩ | ⟨hwin, hfull, heq⟩
      · exact ⟨by rw [heq], fun _ => by rw [heq],
          fun hcw _ => absurd hwin (by simp [hcw]),
          fun hcw _ => absurd hwin (by simp [hcw])⟩
      · exact ⟨by rw [heq], fun hcw => absurd hcw (by simp [hwin]),
          fun _ _ => by rw [heq], fun _ hf => absurd hfull (by simp [hf])⟩
      · exact ⟨by rw [heq], fun hcw => absurd hcw (by simp [hwin]),
          fun _ hf => absurd hf (by simp [hfull]), fun _ _ => by rw [heq, hw]⟩
  · intro g' hne p h c
    rcases handleMove_branch g' p h c with
      ⟨_, heq⟩ | ⟨hu, _⟩ | ⟨hu, _⟩ | ⟨hu, _⟩ | ⟨_, hu, _⟩
    · exact heq
    · exact absurd hu hne
    · exact absurd hu hne
    · exact absurd hu hne
    · exact absurd hu hne

/-- A fresh in-progress game: empty board, red to move, no result. -/
def freshGame : Game :=
  { board := emptyBoard, currentPlayer := Color.red, winner := Winner.unset }

/-- C5 counterexample. A move in a fresh game by the side holding the turn
into out-of-range column 9 is rejected as an invalid column, yet no error
message is written to the acting client (the Go branch only logs),
refuting "the rejection is reported to the acting client as an error
message" for this rejection class. -/
theorem handleMove_invalid_column_silent :
    ¬ (((handleMove freshGame Color.red true 9).2.1 = MoveOutcome.rejInvalidColumn) →
        (handleMove freshGame Color.red true 9).2.2 ≠ []) := by
  decide

/-- C5 (amended). Every move rejected as a rule violation — wrong turn,
out-of-range column, full column — leaves the session state (board,
turn marker, result) unchanged; wrong-turn and full-column rejections are
reported to the connected acting client with an error message, while an
out-of-range column is rejected silently (logged only). -/
theorem handleMove_rejection_frame (g : Game) (p : Color) (col : Int)
    (h : (handleMove g p true col).2.1 = MoveOutcome.rejWrongTurn ∨
         (handleMove g p true col).2.1 = MoveOutcome.rejInvalidColumn ∨
         (handleMove g p true col).2.1 = MoveOutcome.rejColumnFull) :
    (handleMove g p true col).1 = g ∧
    ((handleMove g p true col).2.1 = MoveOutcome.rejWrongTurn →
      (handleMove g p true col).2.2 = ["Not your turn"]) ∧
    ((handleMove g p true col).2.1 = MoveOutcome.rejColumnFull →
      (handleMove g p true col).2.2 = ["Column is full"]) ∧
    ((handleMove g p true col).2.1 = MoveOutcome.rejInvalidColumn →
      (handleMove g p true col).2.2 = []) := by
  rcases handleMove_branch g p true col with
    ⟨_, heq⟩ | ⟨_, _, heq⟩ | ⟨_, _, _, heq⟩ | ⟨_, _, _, _, heq⟩ |
    ⟨row, _, _, _, _, hcase⟩
  · rw [heq] at h
    rcases h with h | h | h <;> simp at h
  · rw [heq]
    refine ⟨rfl, fun _ => rfl, fun hh => ?_, fun hh => ?_⟩ <;> simp at hh
  · rw [heq]
    refine ⟨rfl, fun hh => ?_, fun hh => ?_, fun _ => rfl⟩ <;> simp at hh
  · rw [heq]
    refine ⟨rfl, fun hh => ?_, fun _ => rfl, fun hh => ?_⟩ <;> simp at hh
  · rcases hcase with ⟨_, heq⟩ | ⟨_, _, heq⟩ | ⟨_, _, heq⟩ <;>
      (rw [heq] at h; rcases h with h | h | h <;> simp at h)

end C4
namespace C4

/-! ### The disconnect grace-period timer (C6) -/

/-- C6. When the grace-period timer fires: if the seat is still marked
disconnected and the game is still in progress, the session finishes with
the other seat's color as winner while board, turn marker and both seats
are untouched (`forfeitFire` calls no win check); if the seat reconnected
or the game already finished, the firing changes nothing at all. -/
theorem forfeitFire_spec (s : Session) (who : SeatId) :
    ((seatOf s who).disconnected = true → s.game.winner = Winner.unset →
      (forfeitFire s who).game.winner = winnerOfColor (seatOf s (otherSeat who)).color ∧
      (forfeitFire s who).game.board = s.game.board ∧
      (forfeitFire s who).game.currentPlayer = s.game.currentPlayer ∧
      (forfeitFire s who).seat1 = s.seat1 ∧ (forfeitFire s who).seat2 = s.seat2) ∧
    (((seatOf s who).disconnected = false ∨ s.game.winner ≠ Winner.unset) →
      forfeitFire s who = s) := by
  constructor
  · intro hd hw
    unfold forfeitFire
    rw [if_pos ⟨hd, hw⟩]
    exact ⟨rfl, rfl, rfl, rfl, rfl⟩
  · intro hcond
    unfold forfeitFire
    rw [if_neg]
    rintro ⟨hd, hw⟩
    rcases hcond with hc | hc
    · rw [hd] at hc
      cases hc
    · exact hc hw

end C4
namespace C4

/-! ### Rejoin-by-identity in the matchmaker (C7) -/

/-- The rejoin scan succeeds as soon as some registered game has a
disconnected seat for this username, and returns that (first such) game
reattached. -/
theorem rejoinScan_finds (u : String) (conn : Nat) :
    ∀ games : List MGame,
      (∃ g ∈ games, canRejoin1 g u = true ∨ canRejoin2 g u = true) →
      ∃ g ∈ games, (canRejoin1 g u = true ∨ canRejoin2 g u = true) ∧
        ∃ games' : List MGame,
          rejoinScan games u conn =
            some (games', if canRejoin1 g u then reattach1 g conn else reattach2 g conn) := by
  intro games
  induction games with
  | nil =>
    rintro ⟨g, hg, _⟩
    cases hg
  | cons a t ih =>
    rintro ⟨g, hg, hcr⟩
    by_cases h1 : canRejoin1 a u = true
    · refine ⟨a, List.mem_cons_self a t, Or.inl h1, reattach1 a conn :: t, ?_⟩
      unfold rejoinScan
      rw [if_pos h1, if_pos h1]
    · by_cases h2 : canRejoin2 a u = true
      · refine ⟨a, List.mem_cons_self a t, Or.inr h2, reattach2 a conn :: t, ?_⟩
        unfold rejoinScan
        rw [if_neg h1, if_pos h2, if_neg h1]
      · have hga : g ≠ a := by
          rintro rfl
          rcases hcr with hc | hc
          · exact h1 hc
          · exact h2 hc
        have hgt : g ∈ t := by
          rcases List.mem_cons.mp hg with hc | hc
          · exact absurd hc hga
          · exact hc
        obtain ⟨g', hg', hcr', games', hscan⟩ := ih ⟨g, hgt, hcr⟩
        refine ⟨g', List.mem_cons_of_mem a hg', hcr', a :: games', ?_⟩
        unfold rejoinScan
        rw [if_neg h1, if_neg h2, hscan]
        rfl

/-- C7. When the joining participant's identity occupies a disconnected
seat in some non-terminal registered session, `matchPlayer` reattaches
(before any queue pairing: the waiting queue is left untouched and the
result is a reattachment, not a pairing): the matching seat's connection
is replaced and its disconnected flag cleared, the game's board, turn
marker and result are unchanged, and the current state is re-sent. -/
theorem matchPlayer_rejoins (st : MMState) (u : String) (conn : Nat)
    (h : ∃ g ∈ st.games, canRejoin1 g u = true ∨ canRejoin2 g u = true) :
    ∃ g ∈ st.games, (canRejoin1 g u = true ∨ canRejoin2 g u = true) ∧
      ∃ g', (matchPlayer st u conn).2.1 = JoinResult.reattached g' ∧
        g'.game = g.game ∧
        (matchPlayer st u conn).1.waiting = st.waiting ∧
        (matchPlayer st u conn).2.2 = [MMsg.stateMsg g.game.board g.game.currentPlayer] ∧
        (canRejoin1 g u = true →
          g'.player1.conn = some conn ∧ g'.player1.disconnected = false) ∧
        (canRejoin1 g u = false →
          ∃ p2, g'.player2 = some p2 ∧ p2.conn = some conn ∧ p2.disconnected = false) := by
  obtain ⟨g, hg, hcr, games', hscan⟩ := rejoinScan_finds u conn st.games h
  set g' : MGame := if canRejoin1 g u then reattach1 g conn else reattach2 g conn with hg'
  have hgame : g'.game = g.game := by
    rw [hg']
    by_cases h1 : canRejoin1 g u = true
    · rw [if_pos h1]
      rfl
    · rw [if_neg h1]
      rfl
  refine ⟨g, hg, hcr, g', ?_, hgame, ?_, ?_, ?_, ?_⟩
  · unfold matchPlayer
    rw [hscan]
  · unfold matchPlayer
    rw [hscan]
  · unfold matchPlayer
    rw [hscan]
    simp only [hgame]
  · intro h1
    rw [hg', if_pos h1]
    exact ⟨rfl, rfl⟩
  · intro h1
    have h2 : canRejoin2 g u = true := by
      rcases hcr with hc | hc
      · rw [h1] at hc
        cases hc
      · exact hc
    obtain ⟨p2, hp2⟩ : ∃ p2, g.player2 = some p2 := by
      unfold canRejoin2 at h2
      rw [Bool.and_eq_true] at h2
      cases hgp : g.player2 with
      | none => rw [hgp] at h2; simp at h2
      | some p2 => exact ⟨p2, rfl⟩
    refine ⟨{ p2 with conn := some conn, disconnected := false }, ?_, rfl, rfl⟩
    rw [hg', if_neg (by simp [h1])]
    unfold reattach2
    rw [hp2]
    rfl

end C4
namespace C4

/-! ### The matchmaking queue invariant (C9) -/

/-- In every reachable matchmaker state the waiting queue holds at most one
entry: a join either reattaches (queue untouched), pairs with the head
(queue shrinks), or appends to an empty queue; the fallback timer only
removes. -/
theorem reach_waiting_len (s : MMState) (h : Reach s) : s.waiting.length ≤ 1 := by
  induction h with
  | init => simp
  | join s u conn _ ih =>
    unfold matchPlayer
    cases hscan : rejoinScan s.games u conn with
    | some p =>
      cases p with
      | mk games' g' => simpa using ih
    | none =>
      cases hw : s.waiting with
      | nil => simp
      | cons opp rest =>
        have h1 := ih
        rw [hw] at h1
        simp only [List.length_cons] at h1
        show rest.length ≤ 1
        omega
  | timer s p _ ih =>
    unfold botTimerFire
    split
    · calc ((s.waiting.erase p).length : Nat) ≤ s.waiting.length := s.waiting.length_erase_le p
        _ ≤ 1 := ih
    · exact ih
  | env s G _ ih => simpa using ih

/-- C9. In every reachable matchmaker state, each participant identity
appears at most once in the waiting queue; and pairing always consumes the
head of the queue (FIFO): when no rejoin applies and the queue is
non-empty, the join pairs the head (as seat 1) with the joiner (as seat 2)
and pops exactly the head. This holds across any sequence of joins and
fallback-timer firings, including repeated joins by one identity. -/
theorem waiting_queue_at_most_once (s : MMState) (h : Reach s) :
    (∀ u : String, ((s.waiting.map WPlayer.username).count u) ≤ 1) ∧
    (∀ (u : String) (conn : Nat) (opp : WPlayer) (rest : List WPlayer),
      s.waiting = opp :: rest →
      rejoinScan s.games u conn = none →
      matchPlayer s u conn =
        ({ games := s.games ++ [createGame opp { username := u, conn := conn }],
           waiting := rest },
         JoinResult.paired (createGame opp { username := u, conn := conn }),
         [MMsg.startMsg])) := by
  constructor
  · intro u
    calc ((s.waiting.map WPlayer.username).count u)
        ≤ (s.waiting.map WPlayer.username).length := List.count_le_length u _
      _ = s.waiting.length := List.length_map _ _
      _ ≤ 1 := reach_waiting_len s h
  · intro u conn opp rest hw hscan
    unfold matchPlayer
    rw [hscan, hw]

end C4
namespace C4

/-! ### Concrete witnesses -/

/-- A board with a horizontal red four on the bottom row (columns 0-3). -/
def winBoardH : Board :=
  List.replicate 5 (List.replicate 7 Color.empty) ++
  [[Color.red, Color.red, Color.red, Color.red, Color.empty, Color.empty, Color.empty]]

theorem checkWinner_iff_hasFourThrough_witness :
    inGrid 5 3 = true ∧ cellAt winBoardH 5 3 ≠ Color.empty ∧
    (checkWinner winBoardH 5 3 = true ↔ hasFourThrough winBoardH 5 3) :=
  ⟨by decide, by decide, checkWinner_iff_hasFourThrough winBoardH 5 3 (by decide) (by decide)⟩

theorem place_lowest_empty_witness :
    boardWF emptyBoard ∧ 0 < COLS ∧ Color.red ≠ Color.empty ∧
    (place emptyBoard 0 Color.red = none ↔
      ∀ r, r < ROWS → getCell emptyBoard r 0 ≠ Color.empty) :=
  ⟨emptyBoard_wf, by decide, by decide,
   (place_lowest_empty emptyBoard 0 Color.red emptyBoard_wf (by decide) (by decide)).2⟩

theorem handleMove_accept_transitions_witness :
    findRow freshGame.board (3 : Int).toNat = some 5 ∧
    (handleMove freshGame Color.red true 3).2.1 = MoveOutcome.accepted :=
  ⟨by decide,
   (handleMove_accept_transitions freshGame Color.red true 3 5 rfl rfl (by decide) (by decide)
      (by decide)).1.1⟩

theorem handleMove_rejection_frame_witness :
    (handleMove freshGame Color.yellow true 0).2.1 = MoveOutcome.rejWrongTurn ∧
    (handleMove freshGame Color.yellow true 0).1 = freshGame :=
  ⟨by decide, (handleMove_rejection_frame freshGame Color.yellow 0 (Or.inl (by decide))).1⟩

/-- A session whose seat 1 (red) is marked disconnected mid-game. -/
def discSession : Session :=
  { game := freshGame,
    seat1 := { color := Color.red, disconnected := true },
    seat2 := { color := Color.yellow, disconnected := false } }

theorem forfeitFire_spec_witness :
    (seatOf discSession SeatId.one).disconnected = true ∧
    discSession.game.winner = Winner.unset ∧
    (forfeitFire discSession SeatId.one).game.winner =
      winnerOfColor (seatOf discSession (otherSeat SeatId.one)).color :=
  ⟨by decide, by decide,
   ((forfeitFire_spec discSession SeatId.one).1 (by decide) (by decide)).1⟩

/-- A registered game whose seat 1 belongs to a disconnected identity. -/
def discMGame : MGame :=
  { game := freshGame,
    player1 := { username := "alice", color := Color.red, conn := none, disconnected := true },
    player2 := some { username := "bob", color := Color.yellow, conn := some 1,
                      disconnected := false },
    isBot := false }

/-- A matchmaker state holding just that session and an empty queue. -/
def discState : MMState := { games := [discMGame], waiting := [] }

theorem matchPlayer_rejoins_witness :
    ∃ g ∈ discState.games, (canRejoin1 g "alice" = true ∨ canRejoin2 g "alice" = true) ∧
      ∃ g', (matchPlayer discState "alice" 7).2.1 = JoinResult.reattached g' ∧
        g'.game = g.game ∧
        (matchPlayer discState "alice" 7).1.waiting = discState.waiting ∧
        (matchPlayer discState "alice" 7).2.2 =
          [MMsg.stateMsg g.game.board g.game.currentPlayer] ∧
        (canRejoin1 g "alice" = true →
          g'.player1.conn = some 7 ∧ g'.player1.disconnected = false) ∧
        (canRejoin1 g "alice" = false →
          ∃ p2, g'.player2 = some p2 ∧ p2.conn = some 7 ∧ p2.disconnected = false) :=
  matchPlayer_rejoins discState "alice" 7
    ⟨discMGame, by simp [discState], Or.inl (by decide)⟩

theorem waiting_queue_at_most_once_witness :
    (∀ u : String,
      ((({ games := [], waiting := [] } : MMState).waiting.map WPlayer.username).count u) ≤ 1) ∧
    (∀ (u : String) (conn : Nat) (opp : WPlayer) (rest : List WPlayer),
      ({ games := [], waiting := [] } : MMState).waiting = opp :: rest →
      rejoinScan ({ games := [], waiting := [] } : MMState).games u conn = none →
      matchPlayer { games := [], waiting := [] } u conn =
        ({ games := ({ games := [], waiting := [] } : MMState).games ++
             [createGame opp { username := u, conn := conn }],
           waiting := rest },
         JoinResult.paired (createGame opp { username := u, conn := conn }),
         [MMsg.startMsg])) :=
  waiting_queue_at_most_once { games := [], waiting := [] } Reach.init

theorem getBotMove_safe_witness :
    (getBotMove emptyBoard = -1 → ∀ col, col < COLS → getCell emptyBoard 0 col ≠ Color.empty) ∧
    (getBotMove emptyBoard ≠ -1 →
      ∃ col : Nat, getBotMove emptyBoard = (col : Int) ∧ col < COLS ∧
        findRow emptyBoard col ≠ none) :=
  getBotMove_safe emptyBoard

end C4
